import Mathlib

/-!
Shallow embedding of the JobSpider Boss crawler (src/spider/jobspiderboss.py,
src/utility/sql.py, src/spider/utility.py) together with theorems checking the
natural-language specification against it.

Conventions used throughout:
* Python exceptions are modelled by the `Except PyErr` monadic result type;
  a function that the Python code can exit abnormally returns `Except`.
* `async` / browser plumbing is collapsed: one fetch attempt of a page is an
  oracle `Nat → Option Html` giving, for attempt number i, either `none`
  (page banned / timed out / errored, the `_managed_page` context yields
  `None`) or `some content` (the parsed DOM of `page.content()`).
* The sqlite layer is modelled by explicit table states (lists of rows) and
  an abstract `action` argument for `execute_sql_command`; the
  `with sqlite3.connect(...)` context manager commits on success and rolls
  back on an exception, which is why the swallowed-IntegrityError branch
  returns the unchanged table state.
* HTML-to-DOM parsing is out of scope (spec section 1); page contents are
  already DOM trees (`Html`).
-/

/-- Errors of the sqlite3 layer: `sqlite3.IntegrityError` (uniqueness violation)
versus every other `sqlite3.Error` (carried abstractly with a message). -/
inductive SqliteError where
  | integrityError
  | otherError (msg : String)
  deriving DecidableEq

/-- Python exceptions that the embedded code can raise. -/
inductive PyErr where
  | valueError
  | indexError
  | unboundLocalError
  | recursionError
  | sqlite (e : SqliteError)
  deriving DecidableEq

/-- Retry budget. Imported in the source as `MAX_RETRIES` from
`utility/constant.py`, a file not present under src/.
Modelled from the spec: MAX_RETRIES (3); the value 3 is also what
src/spider/config.py and src/spider/utility.py define for their own
`MAX_RETRIES`. -/
def MAX_RETRIES : Nat := 3

/-- Python `range(start, stop, step)` for a positive step: the indices
`start, start+step, ...` below `stop`. -/
def pyRangeStep (start stop step : Nat) : List Nat :=
  if h : 0 < step ∧ start < stop then start :: pyRangeStep (start + step) stop step
  else []
termination_by stop - start
decreasing_by omega

/-- Python `range(start, stop, step)`: constructing a range with `step = 0`
raises `ValueError: range() arg 3 must not be zero`. -/
def pyRange3 (start stop step : Nat) : Except PyErr (List Nat) :=
  if step = 0 then .error .valueError else .ok (pyRangeStep start stop step)

/-- Python slice `l[i : j]`. -/
def pySlice (l : List α) (i j : Nat) : List α :=
  (l.drop i).take (j - i)

/-- `JobSpiderBoss._chunked_tasks`: yields the slices
`tasks[i : i + chunk_size]` for `i in range(0, len(tasks), chunk_size)`.
The `ValueError` of a zero step surfaces when the generator is iterated,
i.e. still inside the caller (`crawl`). -/
def chunked_tasks (tasks : List α) (chunk_size : Nat) : Except PyErr (List (List α)) :=
  match pyRange3 0 tasks.length chunk_size with
  | .error e => .error e
  | .ok idxs => .ok (idxs.map fun i => pySlice tasks i (i + chunk_size))

/-- Reference chunking function used only in proofs: chop a list into
consecutive pieces of length `k` (last piece possibly shorter). -/
def chunksOf (k : Nat) (l : List α) : List (List α) :=
  if l.isEmpty ∨ k = 0 then [] else l.take k :: chunksOf k (l.drop k)
termination_by l.length
decreasing_by
  cases l with
  | nil => simp_all
  | cons a t => simp_all; omega

mutual
/-- A DOM node in the BeautifulSoup sense: either a `NavigableString` or a
`Tag` with a name, a raw class attribute and children. -/
inductive Html where
  | nav (s : String)
  | tag (name : String) (classAttr : String) (children : HtmlList)
  deriving DecidableEq
/-- Children of a tag (a mutual list type, so that all traversals are
structurally recursive). -/
inductive HtmlList where
  | nil
  | cons (head : Html) (tail : HtmlList)
  deriving DecidableEq
end

/-- Build an `HtmlList` from a `List Html` (used to write example trees). -/
def HtmlList.ofList : List Html → HtmlList
  | [] => .nil
  | h :: t => .cons h (HtmlList.ofList t)

/-- Split a character list on single spaces (the class attribute separator). -/
def splitOnSpaceAux (cur : List Char) : List Char → List (List Char)
  | [] => [cur.reverse]
  | c :: cs =>
      if c = ' ' then cur.reverse :: splitOnSpaceAux [] cs
      else splitOnSpaceAux (c :: cur) cs

/-- BeautifulSoup class matching: a query containing a space must equal the
raw class attribute exactly; a single-class query matches when it is one of
the whitespace-separated classes of the attribute. -/
def matchClassQuery (query attr : String) : Bool :=
  if query.toList.contains ' ' then query == attr
  else (splitOnSpaceAux [] attr.toList).contains query.toList

/-- Does a node match a BeautifulSoup `find(name, class_=cls)` query?
Only tags can match (a `NavigableString` never does). -/
def matchesQuery (name : String) (cls : Option String) : Html → Bool
  | .nav _ => false
  | .tag nm ca _ =>
      nm == name && (match cls with
        | none => true
        | some q => matchClassQuery q ca)

mutual
/-- All descendants of a node matching a query, in document (preorder)
order; the node itself is not considered, as in BeautifulSoup. -/
def Html.findAllAux (name : String) (cls : Option String) : Html → List Html
  | .nav _ => []
  | .tag _ _ cs => HtmlList.findAllAux name cls cs
/-- Matching nodes within a child list: each child (if it matches) followed
by its own matching descendants, then the rest of the list. -/
def HtmlList.findAllAux (name : String) (cls : Option String) : HtmlList → List Html
  | .nil => []
  | .cons h t =>
      (if matchesQuery name cls h then [h] else []) ++ Html.findAllAux name cls h
        ++ HtmlList.findAllAux name cls t
end

/-- BeautifulSoup `element.find_all(name, class_=cls)`. -/
def Html.find_all (h : Html) (name : String) (cls : Option String) : List Html :=
  Html.findAllAux name cls h

/-- BeautifulSoup `element.find(name, class_=cls)`: first match in document
order, or `None`. -/
def Html.find (h : Html) (name : String) (cls : Option String) : Option Html :=
  (h.find_all name cls).head?

mutual
/-- BeautifulSoup `.text`: concatenation of all strings in the subtree. -/
def Html.text : Html → String
  | .nav s => s
  | .tag _ _ cs => HtmlList.textAux cs
/-- Concatenated text of a child list. -/
def HtmlList.textAux : HtmlList → String
  | .nil => ""
  | .cons h t => Html.text h ++ HtmlList.textAux t
end

/-- Helper `_get_text(element, class_name, name)` inside
`_parse_single_job`: a `NavigableString` or absent element yields `""`;
otherwise the text of the first matching sub-element, or `""` when absent. -/
def get_text (element : Option Html) (class_name : String) (name : String) : String :=
  match element with
  | some (.nav _) => ""
  | none => ""
  | some e =>
      match e.find name (some class_name) with
      | some ele => ele.text
      | none => ""

/-- Helper `_join_text(element)` inside `_parse_single_job`: the texts of
all `li` descendants joined with a plain comma; `""` for a
`NavigableString` or absent element. -/
def join_text (element : Option Html) : String :=
  match element with
  | some (.nav _) => ""
  | none => ""
  | some e => String.intercalate "," ((e.find_all "li" none).map Html.text)

/-- Helper `_get_info(job, class_name)`: `job.find("div", class_=class_name)`
(the `isinstance(info, Tag)` guard in the source is redundant because a
name-filtered `find` only returns tags). -/
def get_info (job : Html) (class_name : String) : Option Html :=
  job.find "div" (some class_name)

/-- Python `str.replace("，", ",")` as used on the job-other-tags text: the
pattern is a single character, so it is the character-wise substitution of
the full-width comma by a plain comma. -/
def replace_fullwidth_comma (s : String) : String :=
  String.mk (s.toList.map fun c => if c = '，' then ',' else c)

/-- The dictionary produced by `_parse_single_job` for one job card (the
source later takes `.values()` in this fixed field order). `job_area` and
`job_salary` are stored in the `area` and `salary` columns. -/
structure JobDict where
  job_name : String
  job_area : String
  job_salary : String
  edu_exp : String
  company_name : String
  company_tag : String
  skill_tags : String
  job_other_tags : String
  deriving DecidableEq

/-- `JobSpiderBoss._parse_single_job`: extract the eight fields of one
job-card element, tolerating missing sub-elements. -/
def parse_single_job (job : Html) : JobDict :=
  let jobInfo := get_info job "job-info clearfix"
  let companyInfo := get_info job "company-info"
  let cardBottom := get_info job "job-card-footer clearfix"
  { job_name := get_text (some job) "job-name" "span"
    job_area := get_text (some job) "job-area" "span"
    job_salary := get_text (some job) "salary" "span"
    edu_exp :=
      match jobInfo with
      | some ji => join_text (ji.find "ul" (some "tag-list"))
      | none => ""
    company_name :=
      match companyInfo with
      | some ci => get_text (some ci) "company-name" "h3"
      | none => ""
    company_tag :=
      match companyInfo with
      | some ci => join_text (some ci)
      | none => ""
    skill_tags :=
      match cardBottom with
      | some cb => join_text (cb.find "ul" none)
      | none => ""
    job_other_tags :=
      match cardBottom with
      | some cb => replace_fullwidth_comma (get_text (some cb) "info-desc" "div")
      | none => "" }

/-- `JobSpiderBoss._parse_job_list`: one record per
`li.job-card-wrapper` element of the page. -/
def parse_job_list (soup : Html) : List JobDict :=
  (soup.find_all "li" (some "job-card-wrapper")).map parse_single_job

/-- Python `int` applied to the one-character string `text[-1]`: the digit
value, or `ValueError` for a non-digit. -/
def pyIntDigit (c : Char) : Except PyErr Nat :=
  if c.isDigit then .ok (c.toNat - 48) else .error .valueError

/-- `JobSpiderBoss._parse_max_page`: find `div.options-pages`; absent gives
`None`; otherwise take the last character of its text as an int, reading a
final `0` as page count 10. Indexing `text[-1]` of an empty text raises
`IndexError`. -/
def parse_max_page (soup : Html) : Except PyErr (Option Nat) :=
  match soup.find "div" (some "options-pages") with
  | none => .ok none
  | some ele =>
      match (Html.text ele).toList.getLast? with
      | none => .error .indexError
      | some c =>
          match pyIntDigit c with
          | .error e => .error e
          | .ok max_page => .ok (some (if max_page = 0 then 10 else max_page))

/-- `utility/sql.py execute_sql_command`: run an abstract statement `action`
on table state `db`. On success the transaction commits and the fetch
result is returned; an `IntegrityError` is swallowed with a warning (the
connection context manager has rolled the transaction back, and the
function falls through to `return None`); every other `sqlite3.Error` is
logged and re-raised unchanged. -/
def execute_sql_command (action : σ → Except SqliteError (σ × ρ)) (db : σ) :
    Except SqliteError (σ × Option ρ) :=
  match action db with
  | .ok (db2, r) => .ok (db2, some r)
  | .error .integrityError => .ok (db, none)
  | .error e => .error e

/-- Primary key of the `joboss` table:
`(job_name, company_name, area, salary, skill_tags)`. -/
def jobPK (r : JobDict) : String × String × String × String × String :=
  (r.job_name, r.company_name, r.job_area, r.job_salary, r.skill_tags)

/-- One `INSERT INTO joboss` of a single row: primary-key collision raises
`IntegrityError`, otherwise the row is appended. -/
def insertJobRow (r : JobDict) (db : List JobDict) :
    Except SqliteError (List JobDict × Unit) :=
  if db.any (fun x => jobPK x = jobPK r) then .error .integrityError
  else .ok (db ++ [r], ())

/-- `cursor.executemany` over a list of job rows: rows are inserted in
order; the first failure aborts (and the surrounding transaction is rolled
back by `execute_sql_command`). -/
def executemanyInsertJob (rows : List JobDict) (db : List JobDict) :
    Except SqliteError (List JobDict × Unit) :=
  match rows with
  | [] => .ok (db, ())
  | r :: rs =>
      match insertJobRow r db with
      | .ok (db2, _) => executemanyInsertJob rs db2
      | .error e => .error e

/-- One row of the `joboss_max_page` table. -/
structure MaxPageRow where
  keyword : String
  area_code : String
  max_page : Nat
  deriving DecidableEq

/-- `INSERT INTO joboss_max_page` of one row; primary key
`(keyword, area_code)`. -/
def insertMaxPageAction (kw city : String) (m : Nat) (t : List MaxPageRow) :
    Except SqliteError (List MaxPageRow × Unit) :=
  if t.any (fun r => r.keyword == kw && r.area_code == city) then .error .integrityError
  else .ok (t ++ [⟨kw, city, m⟩], ())

/-- `JobSpiderBoss._insert_max_page_to_db` via `execute_sql_command`. -/
def insert_max_page_to_db (kw city : String) (m : Nat) (t : List MaxPageRow) :
    Except SqliteError (List MaxPageRow) :=
  match execute_sql_command (insertMaxPageAction kw city m) t with
  | .ok (t2, _) => .ok t2
  | .error e => .error e

/-- `JobSpiderBoss._check_in_page_table`: SELECT the rows matching
`(keyword, area_code)` and test the result list for truthiness. -/
def check_in_page_table (keyword city : String) (t : List MaxPageRow) : Bool :=
  t.any fun r => r.keyword == keyword && r.area_code == city

/-- One row of the `joboss_url_pool` table. -/
structure FrontierEntry where
  url : String
  keyword : String
  area_code : String
  visited : Nat
  cur_page : Nat
  max_page : Nat
  deriving DecidableEq

/-- The two tables touched by the crawl path: `joboss` and
`joboss_url_pool`. -/
structure Store where
  joboss : List JobDict
  url_pool : List FrontierEntry
  deriving DecidableEq

/-- `JobSpiderBoss._insert_job_to_db`: `executemany` the parsed rows inside
`execute_sql_command` (duplicate keys swallowed, transaction semantics as
above). -/
def insert_job_to_db (jobs : List JobDict) (s : Store) : Except SqliteError Store :=
  match execute_sql_command (executemanyInsertJob jobs) s.joboss with
  | .ok (t, _) => .ok { s with joboss := t }
  | .error e => .error e

/-- `JobSpiderBoss._crwal_single_page_by_url`: up to `MAX_RETRIES` attempts
(attempt i is `attempts i`; `none` means the managed page came back banned
or failed and the loop continues); the first successful attempt breaks with
its content. If the loop exhausts, the for-else logs and returns — no data,
no exception. Otherwise the page is parsed and the rows inserted. -/
def crwal_single_page_by_url (attempts : Nat → Option Html) (s : Store) :
    Except PyErr Store :=
  match (List.range MAX_RETRIES).findSome? attempts with
  | none => .ok s
  | some content =>
      match insert_job_to_db (parse_job_list content) s with
      | .ok s2 => .ok s2
      | .error e => .error (.sqlite e)

/-- State threaded through `update_max_page`: the `joboss_max_page` table
plus a count of page visits performed (each loop iteration opens one page,
i.e. one network fetch). -/
structure BossState where
  pageTable : List MaxPageRow
  fetchAttempts : Nat
  deriving DecidableEq

/-- Number of loop iterations the retry loop executes for a given attempt
oracle: the index of the first successful attempt plus one, or
`MAX_RETRIES` when all attempts fail. -/
def attemptsUsed (attempts : Nat → Option Html) : Nat :=
  match (List.range MAX_RETRIES).findIdx? (fun i => (attempts i).isSome) with
  | some i => i + 1
  | none => MAX_RETRIES

/-- `JobSpiderBoss.update_max_page`. Empty keyword or city: log and return.
Existing `(keyword, area_code)` row: log and return (no fetch, no write).
Otherwise run the retry loop; when every attempt fails, the for-else only
logs — the source has no `return` there, so control falls through to
`self._parse_max_page(page_content)` with `page_content` never assigned,
which raises `UnboundLocalError`. On success the page is parsed and a
truthy max page is inserted. -/
def update_max_page (keyword city : String) (attempts : Nat → Option Html)
    (st : BossState) : Except PyErr BossState :=
  if keyword = "" ∨ city = "" then .ok st
  else if check_in_page_table keyword city st.pageTable then .ok st
  else
    match (List.range MAX_RETRIES).findSome? attempts with
    | none => .error .unboundLocalError
    | some content =>
        match parse_max_page content with
        | .error e => .error e
        | .ok none =>
            .ok { st with fetchAttempts := st.fetchAttempts + attemptsUsed attempts }
        | .ok (some m) =>
            if m = 0 then
              .ok { st with fetchAttempts := st.fetchAttempts + attemptsUsed attempts }
            else
              match insert_max_page_to_db keyword city m st.pageTable with
              | .ok t2 => .ok ⟨t2, st.fetchAttempts + attemptsUsed attempts⟩
              | .error e => .error (.sqlite e)

/-- Sequential execution of the per-URL coroutines: `asyncio.gather` runs
each chunk to completion before the next chunk starts, and the storage
boundary serialises the database effects, so the net state transformation
is the fold of `_crwal_single_page_by_url` over the scheduled URLs. -/
def crawlSeq (attempts : String → Nat → Option Html) :
    List String → Store → Except PyErr Store
  | [], s => .ok s
  | u :: us, s =>
      match crwal_single_page_by_url (attempts u) s with
      | .ok s2 => crawlSeq attempts us s2
      | .error e => .error e

/-- `JobSpiderBoss.crawl`: build one task per URL and drain them in chunks
of size `min(2, len(tasks))`. Iterating `_chunked_tasks` with chunk size 0
(empty URL list) raises the range `ValueError` inside `crawl`. -/
def crawl (attempts : String → Nat → Option Html) (urls : List String) (s : Store) :
    Except PyErr Store :=
  match chunked_tasks urls (min 2 urls.length) with
  | .error e => .error e
  | .ok chunks => crawlSeq attempts chunks.flatten s

/-- `_random_select_url`: the unvisited urls of the pool, permuted by
`ORDER BY RANDOM()` (the oracle `orderByRandom`), `LIMIT 1`; the first row
when one exists, the empty string otherwise. -/
def random_select_url (orderByRandom : List String → List String)
    (pool : List FrontierEntry) : String :=
  match (orderByRandom ((pool.filter fun e => e.visited == 0).map (·.url))).head? with
  | some u => u
  | none => ""

/-- `_update_url_visited`: set `visited = 1` on the row with the given url.
Defined in the source but never called by any function in it. -/
def update_url_visited (url : String) (pool : List FrontierEntry) : List FrontierEntry :=
  pool.map fun e => if e.url == url then { e with visited := 1 } else e

/-- `crawl_single`: select one url at random and crawl it. -/
def crawl_single (orderByRandom : List String → List String)
    (attempts : String → Nat → Option Html) (s : Store) : Except PyErr Store :=
  crawl attempts [random_select_url orderByRandom s.url_pool] s

/-- State relevant to the secret-token cache of `Proxy`
(src/spider/utility.py): whether `.secret` exists, the four fields stored
in it, the caller's current `SECRET_ID`, and the current time. Times are
integers (Python floats are out of scope; only order comparisons are used);
the file contents and `now` are held fixed across the recursion, which is
faithful for staleness because real time only moves forward. -/
structure ProxyState where
  fileExists : Bool
  fileToken : String
  fileExpire : Int
  fileTime : Int
  fileId : String
  secretId : String
  now : Int
  deriving DecidableEq

/-- The refresh condition of `_read_secret_token`:
`float(_time) + float(expire) - 3 * 60 < time.time()` or the stored
secret id differs from the current one. -/
def tokenStale (st : ProxyState) : Bool :=
  decide (st.fileTime + st.fileExpire - 3 * 60 < st.now) || st.fileId != st.secretId

/-- Python unpacking `a, b, c = s` of a string: succeeds exactly when the
string has three characters, else `ValueError`. -/
def pyUnpack3 (s : String) : Except PyErr (String × String × String) :=
  match s.toList with
  | [a, b, c] => .ok (String.singleton a, String.singleton b, String.singleton c)
  | _ => .error .valueError

mutual
/-- `Proxy._read_secret_token` as it behaves at runtime. When the cached
token is fresh it is returned. When it is stale, the source calls
`self._get_secret_token()` — but the class defines two methods of that
name and the later (cache-reading) definition shadows the earlier network
fetcher, so the call re-enters the cache path instead of fetching; its
`str` result would then be unpacked into three names. The fuel argument is
the remaining Python recursion depth; exhausting it is `RecursionError`.
The `_write_secret_token` persistence step lies beyond the recursive call
and is therefore unreachable on this path. -/
def read_secret_token : Nat → ProxyState → Except PyErr String
  | 0, _ => .error .recursionError
  | n + 1, st =>
      if tokenStale st then
        match get_secret_token n st with
        | .error e => .error e
        | .ok s =>
            match pyUnpack3 s with
            | .error e => .error e
            | .ok (tok, _, _) => .ok tok
      else .ok st.fileToken
/-- The effective `Proxy._get_secret_token` (the second definition of that
name in the class, which is the one Python keeps): read the cache when the
secret file exists, else call `self._get_secret_token()` — itself — and
unpack the result. -/
def get_secret_token : Nat → ProxyState → Except PyErr String
  | 0, _ => .error .recursionError
  | n + 1, st =>
      if st.fileExists then read_secret_token n st
      else
        match get_secret_token n st with
        | .error e => .error e
        | .ok s =>
            match pyUnpack3 s with
            | .error e => .error e
            | .ok (tok, _, _) => .ok tok
end

/-! ### Example inputs used by the witnesses -/

/-- A pagination control whose text ends in the digit 0 (the truncated "10"). -/
def exPagesDiv : Html := .tag "div" "options-pages" (HtmlList.ofList [.nav "..10"])

/-- A result page containing the pagination control above. -/
def exPagesSoup : Html := .tag "body" "" (HtmlList.ofList [exPagesDiv])

/-- A minimal job-card element (all sub-elements absent). -/
def exJobCard : Html := .tag "li" "job-card-wrapper" .nil

/-- A result page with exactly one (empty) job card. -/
def exJobPage : Html := .tag "body" "" (HtmlList.ofList [exJobCard])

/-- The record extracted from the empty job card: eight empty fields. -/
def exEmptyJob : JobDict := ⟨"", "", "", "", "", "", "", ""⟩

/-- A tag list with two entries, as found inside the job-info block. -/
def exTagList : Html :=
  .tag "ul" "tag-list"
    (HtmlList.ofList
      [.tag "li" "" (HtmlList.ofList [.nav "tagA"]),
       .tag "li" "" (HtmlList.ofList [.nav "tagB"])])

/-- A job-info block containing the tag list above. -/
def exJobInfo : Html := .tag "div" "job-info clearfix" (HtmlList.ofList [exTagList])

/-- A job card whose job-info block is present. -/
def exFullCard : Html := .tag "li" "job-card-wrapper" (HtmlList.ofList [exJobInfo])

/-- A proxy cache state whose token expired long ago. -/
def exStaleProxy : ProxyState :=
  { fileExists := true, fileToken := "tok", fileExpire := 100, fileTime := 0
    fileId := "id", secretId := "id", now := 1000 }

/-- A proxy cache state whose token is still comfortably fresh. -/
def exFreshProxy : ProxyState :=
  { fileExists := true, fileToken := "tok", fileExpire := 3600, fileTime := 0
    fileId := "id", secretId := "id", now := 60 }

/-! ### Helper lemmas -/

theorem pyRangeStep_eq_nil (i n k : Nat) (h : ¬ i < n) : pyRangeStep i n k = [] := by
  rw [pyRangeStep]
  simp [h]

theorem pyRangeStep_eq_cons (i n k : Nat) (hk : 0 < k) (h : i < n) :
    pyRangeStep i n k = i :: pyRangeStep (i + k) n k := by
  rw [pyRangeStep]
  simp [hk, h]

theorem pyRangeStep_map_chunksOf (k : Nat) (hk : 0 < k) (l : List α) :
    ∀ n i, l.length - i ≤ n →
      (pyRangeStep i l.length k).map (fun j => (l.drop j).take k) = chunksOf k (l.drop i) := by
  intro n
  induction n with
  | zero =>
      intro i h
      have hi : ¬ i < l.length := by omega
      rw [pyRangeStep_eq_nil _ _ _ hi]
      have hd : l.drop i = [] := List.drop_eq_nil_of_le (by omega)
      rw [hd, chunksOf]
      simp
  | succ n ih =>
      intro i h
      by_cases hi : i < l.length
      · rw [pyRangeStep_eq_cons _ _ _ hk hi, chunksOf]
        have hcond : ¬ ((l.drop i).isEmpty = true ∨ k = 0) := by
          rw [List.isEmpty_iff]
          push_neg
          refine ⟨fun hcon => ?_, by omega⟩
          have := congrArg List.length hcon
          simp at this
          omega
        rw [if_neg hcond]
        simp only [List.map_cons]
        congr 1
        rw [List.drop_drop]
        exact ih (i + k) (by omega)
      · rw [pyRangeStep_eq_nil _ _ _ hi]
        have hd : l.drop i = [] := List.drop_eq_nil_of_le (by omega)
        rw [hd, chunksOf]
        simp

theorem chunked_tasks_eq_chunksOf (l : List α) (k : Nat) (hk : k ≠ 0) :
    chunked_tasks l k = .ok (chunksOf k l) := by
  have hb := pyRangeStep_map_chunksOf k (Nat.pos_of_ne_zero hk) l l.length 0 (by omega)
  rw [List.drop_zero] at hb
  unfold chunked_tasks pyRange3
  rw [if_neg hk]
  simp only [pySlice, Nat.add_sub_cancel_left]
  rw [hb]

theorem chunksOf_flatten (k : Nat) (hk : k ≠ 0) (l : List α) :
    (chunksOf k l).flatten = l := by
  induction l using chunksOf.induct k with
  | case1 l h =>
      rw [chunksOf, if_pos h]
      rcases h with h | h
      · rw [List.isEmpty_iff] at h
        simp [h]
      · exact absurd h hk
  | case2 l h ih =>
      rw [chunksOf, if_neg h]
      simp [ih, List.take_append_drop]

theorem chunksOf_length_le (k : Nat) (l : List α) :
    ∀ c ∈ chunksOf k l, c.length ≤ k := by
  induction l using chunksOf.induct k with
  | case1 l h =>
      intro c hc
      rw [chunksOf, if_pos h] at hc
      simp at hc
  | case2 l h ih =>
      intro c hc
      rw [chunksOf, if_neg h] at hc
      rcases List.mem_cons.mp hc with rfl | hc
      · rw [List.length_take]
        omega
      · exact ih c hc

theorem chunksOf_dropLast_length (k : Nat) (l : List α) :
    ∀ c ∈ (chunksOf k l).dropLast, c.length = k := by
  induction l using chunksOf.induct k with
  | case1 l h =>
      intro c hc
      rw [chunksOf, if_pos h] at hc
      simp at hc
  | case2 l h ih =>
      intro c hc
      rw [chunksOf, if_neg h] at hc
      cases hrest : chunksOf k (l.drop k) with
      | nil =>
          rw [hrest] at hc
          simp at hc
      | cons r rs =>
          rw [hrest] at hc
          rcases List.mem_cons.mp (by simpa [List.dropLast] using hc) with rfl | hc2
          · rw [List.length_take]
            have hkl : k < l.length := by
              by_contra hcon
              have hnil : l.drop k = [] := List.drop_eq_nil_of_le (by omega)
              rw [chunksOf, if_pos (by simp [hnil])] at hrest
              exact absurd hrest (by simp)
            omega
          · exact ih c (by rw [hrest]; exact hc2)

/-! ### Claim C5 -/

/-- C5: for every task list and every chunk size of at least 1,
`_chunked_tasks` partitions the tasks into ordered chunks whose
concatenation is the original list, every chunk has at most `chunkSize`
elements (so at most `chunkSize` tasks are gathered — in flight — at a
time), and every chunk except possibly the last has exactly `chunkSize`
elements. -/
theorem chunked_tasks_partition (tasks : List String) (chunkSize : Nat)
    (hk : 1 ≤ chunkSize) :
    ∃ cs, chunked_tasks tasks chunkSize = .ok cs ∧
      cs.flatten = tasks ∧
      (∀ c ∈ cs, c.length ≤ chunkSize) ∧
      (∀ c ∈ cs.dropLast, c.length = chunkSize) :=
  ⟨chunksOf chunkSize tasks,
    chunked_tasks_eq_chunksOf _ _ (by omega),
    chunksOf_flatten _ (by omega) _,
    chunksOf_length_le _ _,
    chunksOf_dropLast_length _ _⟩

/-- C5 witness: five pending units with chunk size 2. -/
theorem chunked_tasks_partition_witness :
    ∃ cs, chunked_tasks ["u1", "u2", "u3", "u4", "u5"] 2 = .ok cs ∧
      cs.flatten = ["u1", "u2", "u3", "u4", "u5"] ∧
      (∀ c ∈ cs, c.length ≤ 2) ∧
      (∀ c ∈ cs.dropLast, c.length = 2) :=
  chunked_tasks_partition ["u1", "u2", "u3", "u4", "u5"] 2 (by decide)

/-! ### Totality of the crawl path -/

theorem executemanyInsertJob_error_integrity (rows : List JobDict) :
    ∀ (db : List JobDict) (e : SqliteError),
      executemanyInsertJob rows db = .error e → e = .integrityError := by
  induction rows with
  | nil =>
      intro db e h
      simp [executemanyInsertJob] at h
  | cons r rs ih =>
      intro db e h
      rw [executemanyInsertJob] at h
      unfold insertJobRow at h
      split at h
      · exact ih _ _ h
      · rename_i e2 heq2
        injection h with h2
        subst h2
        split at heq2
        · injection heq2 with h3
          exact h3.symm
        · cases heq2

theorem insert_job_to_db_isOk (jobs : List JobDict) (s : Store) :
    ∃ s2, insert_job_to_db jobs s = .ok s2 := by
  unfold insert_job_to_db execute_sql_command
  cases hact : executemanyInsertJob jobs s.joboss with
  | ok p => exact ⟨_, rfl⟩
  | error e =>
      have he := executemanyInsertJob_error_integrity jobs s.joboss e hact
      subst he
      exact ⟨s, rfl⟩

theorem crwal_isOk (attempts : Nat → Option Html) (s : Store) :
    ∃ s2, crwal_single_page_by_url attempts s = .ok s2 := by
  cases hfs : (List.range MAX_RETRIES).findSome? attempts with
  | none => exact ⟨s, by simp only [crwal_single_page_by_url, hfs]⟩
  | some content =>
      obtain ⟨s2, h2⟩ := insert_job_to_db_isOk (parse_job_list content) s
      exact ⟨s2, by simp only [crwal_single_page_by_url, hfs, h2]⟩

theorem crawlSeq_isOk (attempts : String → Nat → Option Html) (urls : List String) :
    ∀ s : Store, ∃ s2, crawlSeq attempts urls s = .ok s2 := by
  induction urls with
  | nil => intro s; exact ⟨s, rfl⟩
  | cons u us ih =>
      intro s
      obtain ⟨s1, h1⟩ := crwal_isOk (attempts u) s
      obtain ⟨s2, h2⟩ := ih s1
      refine ⟨s2, ?_⟩
      rw [crawlSeq, h1]
      exact h2

/-! ### Claim C9 -/

/-- C9: calling `crawl` with an empty URL list raises `ValueError` (the
chunk size `min(2, len(urls))` is 0 and iterating the chunk generator
builds `range(0, 0, 0)`), while for every non-empty URL list `crawl`
returns normally. -/
theorem crawl_empty_urls_value_error (attempts : String → Nat → Option Html)
    (s : Store) (urls : List String) (hne : urls ≠ []) :
    crawl attempts [] s = .error .valueError ∧
    ∃ s2, crawl attempts urls s = .ok s2 := by
  constructor
  · rfl
  · have hk : min 2 urls.length ≠ 0 := by
      cases urls with
      | nil => exact absurd rfl hne
      | cons u us => simp
    have hcs := chunked_tasks_eq_chunksOf urls (min 2 urls.length) hk
    obtain ⟨s2, h2⟩ := crawlSeq_isOk attempts (chunksOf (min 2 urls.length) urls).flatten s
    refine ⟨s2, ?_⟩
    unfold crawl
    rw [hcs]
    exact h2

/-- C9 witness: the empty list raises; the singleton list succeeds. -/
theorem crawl_empty_urls_value_error_witness :
    crawl (fun _ _ => none) [] ⟨[], []⟩ = .error .valueError ∧
    ∃ s2, crawl (fun _ _ => none) ["u"] ⟨[], []⟩ = .ok s2 :=
  crawl_empty_urls_value_error (fun _ _ => none) ⟨[], []⟩ ["u"] (by decide)

/-! ### Claim C10 -/

/-- C10: when the pool has no unvisited entry, `_random_select_url` returns
the empty string (not an absent value), `crawl_single` passes that empty
string on to `crawl` as the one URL to fetch, the chunker schedules it as
the single chunk, and the crawl proceeds normally instead of terminating
without work. -/
theorem random_select_url_empty_pool (orderByRandom : List String → List String)
    (attempts : String → Nat → Option Html) (s : Store)
    (hperm : ∀ ls, List.Perm (orderByRandom ls) ls)
    (hall : ∀ e ∈ s.url_pool, e.visited ≠ 0) :
    random_select_url orderByRandom s.url_pool = "" ∧
    crawl_single orderByRandom attempts s = crawl attempts [""] s ∧
    chunked_tasks [""] (min 2 1) = .ok [[""]] ∧
    ∃ s2, crawl attempts [""] s = .ok s2 := by
  have hfilter : (s.url_pool.filter fun e => e.visited == 0) = [] := by
    rw [List.filter_eq_nil_iff]
    intro e he
    simpa using hall e he
  have hsel : random_select_url orderByRandom s.url_pool = "" := by
    unfold random_select_url
    rw [hfilter, List.map_nil, (hperm []).eq_nil]
    rfl
  have hch : chunked_tasks [""] (min 2 1) = .ok [[""]] := by
    rw [chunked_tasks_eq_chunksOf [""] (min 2 1) (by decide)]
    rw [chunksOf, if_neg (by decide)]
    rw [chunksOf, if_pos (by decide)]
    rfl
  refine ⟨hsel, ?_, hch, ?_⟩
  · unfold crawl_single
    rw [hsel]
  · obtain ⟨s2, h2⟩ := crawlSeq_isOk attempts [""] s
    refine ⟨s2, ?_⟩
    unfold crawl
    simp only [List.length_singleton, hch]
    simpa using h2

/-- C10 witness: a pool whose only entry is already visited. -/
theorem random_select_url_empty_pool_witness :
    random_select_url (fun ls => ls) [⟨"u", "k", "c", 1, 1, 1⟩] = "" ∧
    crawl_single (fun ls => ls) (fun _ _ => none) ⟨[], [⟨"u", "k", "c", 1, 1, 1⟩]⟩ =
      crawl (fun _ _ => none) [""] ⟨[], [⟨"u", "k", "c", 1, 1, 1⟩]⟩ ∧
    chunked_tasks [""] (min 2 1) = .ok [[""]] ∧
    ∃ s2, crawl (fun _ _ => none) [""] ⟨[], [⟨"u", "k", "c", 1, 1, 1⟩]⟩ = .ok s2 :=
  random_select_url_empty_pool (fun ls => ls) (fun _ _ => none)
    ⟨[], [⟨"u", "k", "c", 1, 1, 1⟩]⟩ (fun ls => List.Perm.refl ls) (by decide)

/-! ### Claim C2 -/

/-- C2: for a result page whose pagination control is present and whose text
ends in a digit, `_parse_max_page` returns 10 when that digit is 0 and the
digit value itself otherwise; for a page without the pagination control it
returns None. -/
theorem parse_max_page_spec (soup ele : Html) (c : Char)
    (hfind : Html.find soup "div" (some "options-pages") = some ele)
    (hlast : (Html.text ele).toList.getLast? = some c)
    (hc : c ∈ ['0', '1', '2', '3', '4', '5', '6', '7', '8', '9']) :
    parse_max_page soup = .ok (some (if c = '0' then 10 else c.toNat - 48)) ∧
    ∀ soup2 : Html, Html.find soup2 "div" (some "options-pages") = none →
      parse_max_page soup2 = .ok none := by
  constructor
  · simp only [parse_max_page, hfind, hlast]
    fin_cases hc <;> rfl
  · intro soup2 h2
    simp only [parse_max_page, h2]

/-- C2 witness: the indicator text ends in 0 and is read as ten pages. -/
theorem parse_max_page_spec_witness :
    parse_max_page exPagesSoup = .ok (some (if '0' = '0' then 10 else '0'.toNat - 48)) ∧
    ∀ soup2 : Html, Html.find soup2 "div" (some "options-pages") = none →
      parse_max_page soup2 = .ok none :=
  parse_max_page_spec exPagesSoup exPagesDiv '0' rfl rfl (by decide)

/-! ### Claim C3 -/

/-- C3: `execute_sql_command` swallows a uniqueness-constraint violation
(returning normally, table unchanged), propagates every other storage error
unchanged, and therefore inserting the same JobRecord twice leaves exactly
one row. -/
theorem execute_sql_command_spec :
    (∀ (σ ρ : Type) (action : σ → Except SqliteError (σ × ρ)) (db : σ),
        action db = .error .integrityError →
        execute_sql_command action db = .ok (db, none)) ∧
    (∀ (σ ρ : Type) (action : σ → Except SqliteError (σ × ρ)) (db : σ)
        (e : SqliteError),
        action db = .error e → e ≠ .integrityError →
        execute_sql_command action db = .error e) ∧
    (∀ r : JobDict,
        execute_sql_command (executemanyInsertJob [r]) ([] : List JobDict) =
          .ok ([r], some ()) ∧
        execute_sql_command (executemanyInsertJob [r]) [r] = .ok ([r], none) ∧
        ([r].filter fun x => jobPK x = jobPK r).length = 1) := by
  refine ⟨?_, ?_, ?_⟩
  · intro σ ρ action db h
    simp only [execute_sql_command, h]
  · intro σ ρ action db e h hne
    unfold execute_sql_command
    rw [h]
    cases e with
    | integrityError => exact absurd rfl hne
    | otherError m => rfl
  · intro r
    refine ⟨?_, ?_, ?_⟩
    · rfl
    · simp [execute_sql_command, executemanyInsertJob, insertJobRow]
    · simp [List.filter]

/-- C3 witness: swallowed integrity error, propagated other error, and the
double insert of a concrete record. -/
theorem execute_sql_command_spec_witness :
    execute_sql_command
        (fun _ : List JobDict =>
          (.error .integrityError : Except SqliteError (List JobDict × Unit))) [] =
      .ok ([], none) ∧
    execute_sql_command
        (fun _ : List JobDict =>
          (.error (.otherError "disk") : Except SqliteError (List JobDict × Unit))) [] =
      .error (.otherError "disk") ∧
    (execute_sql_command (executemanyInsertJob [exEmptyJob]) ([] : List JobDict) =
        .ok ([exEmptyJob], some ()) ∧
      execute_sql_command (executemanyInsertJob [exEmptyJob]) [exEmptyJob] =
        .ok ([exEmptyJob], none) ∧
      ([exEmptyJob].filter fun x => jobPK x = jobPK exEmptyJob).length = 1) :=
  ⟨execute_sql_command_spec.1 _ _ _ _ rfl,
   execute_sql_command_spec.2.1 _ _ _ _ _ rfl (by decide),
   execute_sql_command_spec.2.2 exEmptyJob⟩

/-! ### Structural facts about the DOM queries -/

mutual
theorem mem_findAllAux_html (name : String) (cls : Option String) :
    ∀ h : Html, ∀ e ∈ Html.findAllAux name cls h, matchesQuery name cls e = true
  | .nav _ => by simp [Html.findAllAux]
  | .tag nm ca cs => by
      intro e he
      simp only [Html.findAllAux] at he
      exact mem_findAllAux_list name cls cs e he
theorem mem_findAllAux_list (name : String) (cls : Option String) :
    ∀ hl : HtmlList, ∀ e ∈ HtmlList.findAllAux name cls hl,
      matchesQuery name cls e = true
  | .nil => by simp [HtmlList.findAllAux]
  | .cons hd tl => by
      intro e he
      simp only [HtmlList.findAllAux] at he
      rw [List.mem_append, List.mem_append] at he
      rcases he with (he | he) | he
      · by_cases hm : matchesQuery name cls hd
        · rw [if_pos hm] at he
          rw [List.mem_singleton] at he
          subst he
          exact hm
        · rw [if_neg hm] at he
          simp at he
      · exact mem_findAllAux_html name cls hd e he
      · exact mem_findAllAux_list name cls tl e he
end

theorem find_eq_some_tag (h : Html) (name : String) (cls : Option String) (e : Html)
    (hf : Html.find h name cls = some e) :
    ∃ nm ca cs, e = .tag nm ca cs := by
  have hmem : e ∈ Html.find_all h name cls := by
    unfold Html.find at hf
    cases hl : Html.find_all h name cls with
    | nil => rw [hl] at hf; cases hf
    | cons a t =>
        rw [hl] at hf
        injection hf with h2
        subst h2
        exact List.mem_cons_self _ _
  have hm := mem_findAllAux_html name cls h e hmem
  cases e with
  | nav s => simp [matchesQuery] at hm
  | tag nm ca cs => exact ⟨nm, ca, cs, rfl⟩

theorem replace_fullwidth_comma_no_fullwidth (s : String) :
    '，' ∉ (replace_fullwidth_comma s).toList := by
  intro hmem
  have hmem2 : '，' ∈ s.toList.map (fun c => if c = '，' then ',' else c) := hmem
  rw [List.mem_map] at hmem2
  obtain ⟨a, _, ha⟩ := hmem2
  by_cases h : a = '，'
  · rw [if_pos h] at ha
    exact absurd ha (by decide)
  · rw [if_neg h] at ha
    exact absurd ha h

/-! ### Claim C8 -/

/-- C8: `_parse_single_job` is tolerant — each missing sub-element yields an
empty string for its field instead of failing the card; tag-list fields are
flattened to one comma-joined string; the free-text other-tags field never
contains a full-width comma in the output. -/
theorem parse_single_job_tolerant (job : Html) :
    (get_info job "job-card-footer clearfix" = none →
      (parse_single_job job).skill_tags = "" ∧
      (parse_single_job job).job_other_tags = "") ∧
    (get_info job "company-info" = none →
      (parse_single_job job).company_name = "" ∧
      (parse_single_job job).company_tag = "") ∧
    (get_info job "job-info clearfix" = none → (parse_single_job job).edu_exp = "") ∧
    (Html.find job "span" (some "job-name") = none →
      (parse_single_job job).job_name = "") ∧
    (Html.find job "span" (some "job-area") = none →
      (parse_single_job job).job_area = "") ∧
    (Html.find job "span" (some "salary") = none →
      (parse_single_job job).job_salary = "") ∧
    ('，' ∉ (parse_single_job job).job_other_tags.toList) ∧
    (∀ ji ul, get_info job "job-info clearfix" = some ji →
      Html.find ji "ul" (some "tag-list") = some ul →
      (parse_single_job job).edu_exp =
        String.intercalate "," ((Html.find_all ul "li" none).map Html.text)) := by
  refine ⟨?_, ?_, ?_, ?_, ?_, ?_, ?_, ?_⟩
  · intro h
    constructor <;> simp only [parse_single_job, h]
  · intro h
    constructor <;> simp only [parse_single_job, h]
  · intro h
    simp only [parse_single_job, h]
  · intro h
    cases job with
    | nav s => rfl
    | tag nm ca cs => simp only [parse_single_job, get_text, h]
  · intro h
    cases job with
    | nav s => rfl
    | tag nm ca cs => simp only [parse_single_job, get_text, h]
  · intro h
    cases job with
    | nav s => rfl
    | tag nm ca cs => simp only [parse_single_job, get_text, h]
  · cases hcb : get_info job "job-card-footer clearfix" with
    | none =>
        simp only [parse_single_job, hcb]
        decide
    | some cb =>
        simp only [parse_single_job, hcb]
        exact replace_fullwidth_comma_no_fullwidth _
  · intro ji ul hji hul
    obtain ⟨nm, ca, cs, rfl⟩ := find_eq_some_tag ji "ul" (some "tag-list") ul hul
    simp only [parse_single_job, hji, hul, join_text]

/-- C8 witness: the empty card yields empty fields; a card with a job-info
tag list yields the comma-joined flattening. -/
theorem parse_single_job_tolerant_witness :
    ((parse_single_job exJobCard).skill_tags = "" ∧
      (parse_single_job exJobCard).job_other_tags = "") ∧
    ((parse_single_job exJobCard).company_name = "" ∧
      (parse_single_job exJobCard).company_tag = "") ∧
    (parse_single_job exJobCard).job_name = "" ∧
    ('，' ∉ (parse_single_job exJobCard).job_other_tags.toList) ∧
    (parse_single_job exFullCard).edu_exp =
      String.intercalate "," ((Html.find_all exTagList "li" none).map Html.text) :=
  ⟨(parse_single_job_tolerant exJobCard).1 rfl,
   (parse_single_job_tolerant exJobCard).2.1 rfl,
   (parse_single_job_tolerant exJobCard).2.2.2.1 rfl,
   (parse_single_job_tolerant exJobCard).2.2.2.2.2.2.1,
   (parse_single_job_tolerant exFullCard).2.2.2.2.2.2.2 exJobInfo exTagList rfl rfl⟩

/-! ### Claim C1 -/

theorem findSome?_range3_none (attempts : Nat → Option Html)
    (hb : ∀ i < MAX_RETRIES, attempts i = none) :
    (List.range MAX_RETRIES).findSome? attempts = none := by
  have hr : List.range MAX_RETRIES = [0, 1, 2] := rfl
  rw [hr]
  simp [List.findSome?, hb 0 (by decide), hb 1 (by decide), hb 2 (by decide)]

/-- C1 (code bug): when every one of the MAX_RETRIES attempts yields a
banned or failed page, `_crwal_single_page_by_url` returns normally with no
data (store unchanged), but `update_max_page`, whose for-else lacks the
`return`, falls through to `_parse_max_page(page_content)` with
`page_content` unbound and raises `UnboundLocalError` instead of returning
"no data". -/
theorem all_retries_banned_behavior (attempts : Nat → Option Html) (s : Store)
    (keyword city : String) (st : BossState)
    (hb : ∀ i < MAX_RETRIES, attempts i = none)
    (hkw : keyword ≠ "") (hcity : city ≠ "")
    (hnew : check_in_page_table keyword city st.pageTable = false) :
    crwal_single_page_by_url attempts s = .ok s ∧
    update_max_page keyword city attempts st = .error .unboundLocalError := by
  have hfs := findSome?_range3_none attempts hb
  constructor
  · simp only [crwal_single_page_by_url, hfs]
  · unfold update_max_page
    rw [if_neg (by simp [hkw, hcity])]
    rw [hnew, if_neg (by simp)]
    rw [hfs]

/-- C1 witness: an oracle whose every attempt is banned. -/
theorem all_retries_banned_behavior_witness :
    crwal_single_page_by_url (fun _ => none) ⟨[], []⟩ = .ok ⟨[], []⟩ ∧
    update_max_page "kw" "area" (fun _ => none) ⟨[], 0⟩ = .error .unboundLocalError :=
  all_retries_banned_behavior (fun _ => none) ⟨[], []⟩ "kw" "area" ⟨[], 0⟩
    (fun _ _ => rfl) (by decide) (by decide) rfl

/-! ### Claim C4 -/

theorem update_max_page_ok_pageTable (kw city : String) (att : Nat → Option Html)
    (st st1 : BossState) (hg : ¬(kw = "" ∨ city = ""))
    (hchk : check_in_page_table kw city st.pageTable = false)
    (h1 : update_max_page kw city att st = .ok st1) :
    st1.pageTable = st.pageTable ∨
      ∃ m, st1.pageTable = st.pageTable ++ [⟨kw, city, m⟩] := by
  unfold update_max_page at h1
  rw [if_neg hg, hchk, if_neg (by simp)] at h1
  split at h1
  · simp at h1
  · split at h1
    · simp at h1
    · injection h1 with h2
      left
      rw [← h2]
    · rename_i m heqp
      split at h1
      · injection h1 with h2
        left
        rw [← h2]
      · split at h1
        · rename_i t2 heq
          injection h1 with h2
          have hins : insert_max_page_to_db kw city m st.pageTable =
              .ok (st.pageTable ++ [⟨kw, city, m⟩]) := by
            rw [check_in_page_table] at hchk
            unfold insert_max_page_to_db execute_sql_command insertMaxPageAction
            simp [hchk]
          rw [hins] at heq
          injection heq with h3
          right
          refine ⟨m, ?_⟩
          rw [← h2, ← h3]
        · simp at h1

/-- C4: discovery is a no-op when a MaxPageRecord already exists — the call
returns with the state (page table and fetch counter) unchanged, so there
is no network fetch and no write; consequently, after a first call that
inserted a record, the second call for the same pair finds the record and
is such a no-op, so the discovery fetch is performed at most once. -/
theorem update_max_page_idempotent :
    (∀ (keyword city : String) (attempts : Nat → Option Html) (st : BossState),
        check_in_page_table keyword city st.pageTable = true →
        update_max_page keyword city attempts st = .ok st) ∧
    (∀ (keyword city : String) (att1 att2 : Nat → Option Html) (st st1 : BossState),
        keyword ≠ "" → city ≠ "" →
        update_max_page keyword city att1 st = .ok st1 →
        st1.pageTable ≠ st.pageTable →
        check_in_page_table keyword city st1.pageTable = true ∧
        update_max_page keyword city att2 st1 = .ok st1) := by
  have part1 : ∀ (keyword city : String) (attempts : Nat → Option Html) (st : BossState),
      check_in_page_table keyword city st.pageTable = true →
      update_max_page keyword city attempts st = .ok st := by
    intro kw city att st hchk
    by_cases hg : kw = "" ∨ city = ""
    · unfold update_max_page
      rw [if_pos hg]
    · unfold update_max_page
      rw [if_neg hg, hchk, if_pos rfl]
  refine ⟨part1, ?_⟩
  intro kw city att1 att2 st st1 hkw hcity h1 hne
  have hg : ¬(kw = "" ∨ city = "") := by simp [hkw, hcity]
  by_cases hchk : check_in_page_table kw city st.pageTable = true
  · have heq := part1 kw city att1 st hchk
    rw [heq] at h1
    injection h1 with h2
    exact absurd (congrArg BossState.pageTable h2.symm) hne
  · have hchk2 : check_in_page_table kw city st.pageTable = false := by
      cases hcc : check_in_page_table kw city st.pageTable
      · rfl
      · exact absurd hcc hchk
    rcases update_max_page_ok_pageTable kw city att1 st st1 hg hchk2 h1 with
      hsame | ⟨m, happ⟩
    · exact absurd hsame hne
    · have hchk1 : check_in_page_table kw city st1.pageTable = true := by
        rw [check_in_page_table, happ, List.any_append]
        simp
      exact ⟨hchk1, part1 kw city att2 st1 hchk1⟩

/-- C4 witness: a pre-existing record makes the call a no-op, and a
successful first discovery makes the second call a no-op. -/
theorem update_max_page_idempotent_witness :
    update_max_page "kw" "area" (fun _ => none) ⟨[⟨"kw", "area", 5⟩], 0⟩ =
      .ok ⟨[⟨"kw", "area", 5⟩], 0⟩ ∧
    (check_in_page_table "kw" "area"
        (BossState.mk [⟨"kw", "area", 10⟩] 1).pageTable = true ∧
      update_max_page "kw" "area" (fun _ => none) ⟨[⟨"kw", "area", 10⟩], 1⟩ =
        .ok ⟨[⟨"kw", "area", 10⟩], 1⟩) :=
  ⟨update_max_page_idempotent.1 "kw" "area" (fun _ => none) ⟨[⟨"kw", "area", 5⟩], 0⟩ rfl,
   update_max_page_idempotent.2 "kw" "area" (fun _ => some exPagesSoup) (fun _ => none)
     ⟨[], 0⟩ ⟨[⟨"kw", "area", 10⟩], 1⟩ (by decide) (by decide) rfl (by decide)⟩

/-! ### Claim C6 -/

theorem findSome?_range3_first (attempts : Nat → Option Html) (page : Html)
    (h0 : attempts 0 = some page) :
    (List.range MAX_RETRIES).findSome? attempts = some page := by
  have hr : List.range MAX_RETRIES = [0, 1, 2] := rfl
  rw [hr]
  simp [List.findSome?, h0]

/-- C6 (code bug): after a fully successful unit of work — selection,
fetch, extraction and storage — `crawl_single` leaves the url pool exactly
as it was: the selected entry still has `visited = 0` and is still in the
selectable set, because `_update_url_visited` is never invoked anywhere in
the source. -/
theorem crawl_single_leaves_visited_unchanged
    (orderByRandom : List String → List String)
    (attempts : String → Nat → Option Html) (s : Store) (e : FrontierEntry)
    (page : Html) (db2 : List JobDict)
    (he : e ∈ s.url_pool) (hv : e.visited = 0)
    (hsel : random_select_url orderByRandom s.url_pool = e.url)
    (hfetch : attempts e.url 0 = some page)
    (hstore : executemanyInsertJob (parse_job_list page) s.joboss = .ok (db2, ())) :
    crawl_single orderByRandom attempts s = .ok ⟨db2, s.url_pool⟩ ∧
    e.url ∈ ((s.url_pool.filter fun x => x.visited == 0).map (·.url)) := by
  constructor
  · unfold crawl_single
    rw [hsel]
    unfold crawl
    simp only [List.length_singleton]
    have hch : chunked_tasks [e.url] (min 2 1) = .ok [[e.url]] := by
      rw [chunked_tasks_eq_chunksOf _ _ (by decide)]
      rw [chunksOf, if_neg (by simp)]
      rw [chunksOf, if_pos (by simp)]
      rfl
    simp only [hch]
    show crawlSeq attempts [e.url] s = _
    simp only [crawlSeq, crwal_single_page_by_url,
      findSome?_range3_first (attempts e.url) page hfetch,
      insert_job_to_db, execute_sql_command, hstore]
  · rw [List.mem_map]
    exact ⟨e, List.mem_filter.mpr ⟨he, by simp [hv]⟩, rfl⟩

/-- C6 witness: a one-entry pool whose fetch and storage succeed; the pool
comes back unchanged with the entry still unvisited. -/
theorem crawl_single_leaves_visited_unchanged_witness :
    crawl_single (fun ls => ls) (fun _ _ => some exJobPage)
        ⟨[], [⟨"u", "kw", "area", 0, 1, 1⟩]⟩ =
      .ok ⟨[exEmptyJob], [⟨"u", "kw", "area", 0, 1, 1⟩]⟩ ∧
    "u" ∈ ((([⟨"u", "kw", "area", 0, 1, 1⟩] : List FrontierEntry).filter
        fun x => x.visited == 0).map (·.url)) :=
  crawl_single_leaves_visited_unchanged (fun ls => ls) (fun _ _ => some exJobPage)
    ⟨[], [⟨"u", "kw", "area", 0, 1, 1⟩]⟩ ⟨"u", "kw", "area", 0, 1, 1⟩ exJobPage
    [exEmptyJob] (by decide) rfl rfl rfl rfl

/-! ### Claim C7 -/

/-- C7 (code bug): the cached token is reused exactly under the claim's
freshness condition (now at least three minutes before the stored expiry
and an unchanged secret id); but on the refresh path the second definition
of `_get_secret_token` shadows the network fetcher of the same name, so the
call re-enters the cache-reading code: for every recursion depth it ends in
`RecursionError` and no fresh token is ever fetched or persisted. -/
theorem secret_token_cache_behavior (st : ProxyState) (hex : st.fileExists = true) :
    (tokenStale st = false ↔
      st.now ≤ st.fileTime + st.fileExpire - 3 * 60 ∧ st.fileId = st.secretId) ∧
    (tokenStale st = false → ∀ n : Nat, read_secret_token (n + 1) st = .ok st.fileToken) ∧
    (tokenStale st = true → ∀ n : Nat,
      read_secret_token n st = .error .recursionError ∧
      get_secret_token n st = .error .recursionError) := by
  refine ⟨?_, ?_, ?_⟩
  · unfold tokenStale
    simp [not_lt, and_comm]
  · intro hfresh n
    simp [read_secret_token, hfresh]
  · intro hstale n
    induction n with
    | zero => exact ⟨rfl, rfl⟩
    | succ n ih =>
        refine ⟨?_, ?_⟩
        · simp [read_secret_token, hstale, ih.2]
        · simp [get_secret_token, hex, ih.1]

/-- C7 witness: a fresh cache is reused; a stale cache ends in a recursion
error at depth 5 without fetching. -/
theorem secret_token_cache_behavior_witness :
    read_secret_token 1 exFreshProxy = .ok "tok" ∧
    read_secret_token 5 exStaleProxy = .error .recursionError ∧
    get_secret_token 5 exStaleProxy = .error .recursionError :=
  ⟨(secret_token_cache_behavior exFreshProxy rfl).2.1 (by decide) 0,
   ((secret_token_cache_behavior exStaleProxy rfl).2.2 (by decide) 5).1,
   ((secret_token_cache_behavior exStaleProxy rfl).2.2 (by decide) 5).2⟩
